import Mathlib

/-!
# Verification of the abigenjs input-validation and generation pipeline

This file gives a shallow embedding of the abigenjs command-line utility:
the artifact validator and fallback inference of `src/index.ts`, the
`Generator` class (TypeScript and CommonJS variants) with its package-name,
type-name and output-path computations, the staged-file lifecycle of
`Generator.generate`, and the input collector `collectCandidateFiles`.

JavaScript strings are modelled as Lean `String`s; the case conversions
`toLowerCase`/`toUpperCase` and the character classes of the regexes
`[^a-zA-Z0-9]` and `[A-Za-z]` are modelled on the ASCII fragment, which is
exact for every character those regexes retain.  Node's POSIX `path.dirname`,
`path.basename` and `path.extname` are modelled by functions with the same
input/output behaviour as Node's implementations.  The filesystem is modelled
as explicit state (a set of file paths and a set of directory paths), and the
opaque WebAssembly `abigen` invocation as a boolean oracle.
-/

namespace Abigen

/-- ASCII digit test, the `0-9` part of the regex `[^a-zA-Z0-9]`. -/
def jsIsAsciiDigit (c : Char) : Bool :=
  decide (48 ≤ c.toNat ∧ c.toNat ≤ 57)

/-- ASCII letter test, the character class `[A-Za-z]`. -/
def jsIsAsciiLetter (c : Char) : Bool :=
  decide ((65 ≤ c.toNat ∧ c.toNat ≤ 90) ∨ (97 ≤ c.toNat ∧ c.toNat ≤ 122))

/-- ASCII alphanumeric test, the character class `[a-zA-Z0-9]`. -/
def jsIsAsciiAlnum (c : Char) : Bool :=
  jsIsAsciiLetter c || jsIsAsciiDigit c

/-- JavaScript `toUpperCase` on one character, ASCII fragment. -/
def jsToUpperAscii (c : Char) : Char :=
  if 97 ≤ c.toNat ∧ c.toNat ≤ 122 then Char.ofNat (c.toNat - 32) else c

/-- JavaScript `toLowerCase` on one character, ASCII fragment. -/
def jsToLowerAscii (c : Char) : Char :=
  if 65 ≤ c.toNat ∧ c.toNat ≤ 90 then Char.ofNat (c.toNat + 32) else c

/-- One pass of `String.prototype.replaceAll(ch, "")` for a one-character
pattern: scan the string and drop every occurrence of `ch`. -/
def removeAllCharL (ch : Char) : List Char → List Char
  | [] => []
  | c :: cs => if c = ch then removeAllCharL ch cs else c :: removeAllCharL ch cs

/-- JavaScript `s.replaceAll(ch, "")` for a one-character pattern `ch`. -/
def jsReplaceAllCharEmpty (ch : Char) (s : String) : String :=
  ⟨removeAllCharL ch s.data⟩

/-- JavaScript `s.toLowerCase()`, ASCII fragment. -/
def jsToLowerCase (s : String) : String :=
  ⟨s.data.map jsToLowerAscii⟩

/-- JavaScript `suffix`-test `s.endsWith(t)`. -/
def jsEndsWith (s suffix : String) : Bool :=
  suffix.data.isSuffixOf s.data

/-- Node POSIX `path.dirname`, on the character list of the path.  Trailing
slashes of the path are ignored, then everything before the slash that
precedes the last component is returned; without such a slash the result is
`"."` (or `"/"` for an absolute path), and the special case `"//"` of Node's
implementation is preserved. -/
def jsDirnameL (cs : List Char) : List Char :=
  if cs.isEmpty then ['.']
  else
    let hasRoot := cs.head? = some '/'
    let r2 := (cs.reverse.dropWhile (fun c => c = '/')).dropWhile (fun c => c ≠ '/')
    if r2.length ≤ 1 then (if hasRoot then ['/'] else ['.'])
    else if hasRoot ∧ r2.length - 1 = 1 then ['/', '/']
    else cs.take (r2.length - 1)

/-- Node POSIX `path.dirname`. -/
def jsDirname (s : String) : String :=
  ⟨jsDirnameL s.data⟩

/-- The last path component: strip trailing slashes, then take the longest
slash-free suffix.  This is Node POSIX `path.basename(p)` without a suffix
argument. -/
def lastComponentL (cs : List Char) : List Char :=
  ((cs.reverse.dropWhile (fun c => c = '/')).takeWhile (fun c => c ≠ '/')).reverse

/-- Node POSIX `path.basename(p)`. -/
def jsBasename (s : String) : String :=
  ⟨lastComponentL s.data⟩

/-- Node POSIX `path.extname`, on the character list of the path: the part of
the last component from its final dot, unless that dot is the leading
character of the component or the component is exactly `".."`. -/
def jsExtnameL (cs : List Char) : List Char :=
  let b := lastComponentL cs
  let k := (b.reverse.takeWhile (fun c => c ≠ '.')).length
  if k = b.length then []
  else if b.length - k - 1 = 0 then []
  else if b = ['.', '.'] then []
  else b.drop (b.length - k - 1)

/-- Node POSIX `path.extname`. -/
def jsExtname (s : String) : String :=
  ⟨jsExtnameL s.data⟩

/-- Node POSIX `path.basename(p, suffix)`: the last component of `p`, with
`suffix` stripped when the component ends with (but is not equal to)
`suffix`; a `suffix` equal to the whole path yields `""`. -/
def jsBasenameSuffix (s suffix : String) : String :=
  if suffix.data.isEmpty ∨ s.data.length < suffix.data.length then jsBasename s
  else if suffix = s then ""
  else
    let b := lastComponentL s.data
    if b ≠ suffix.data ∧ suffix.data <:+ b then ⟨b.take (b.length - suffix.data.length)⟩
    else ⟨b⟩

/-- `path.basename(filePath, path.extname(filePath))`: the base name of the
file with its extension stripped, as computed by `deriveArtifactFromAbiOnly`. -/
def jsBasenameNoExt (s : String) : String :=
  jsBasenameSuffix s (jsExtname s)

/-- Parsed JSON values as seen by the pipeline, extended with `undefined`
(the result of reading an absent object property in JavaScript). -/
inductive JsVal where
  | str (s : String)
  | num (n : Int)
  | bool (b : Bool)
  | null
  | undefined
  | arr (items : List JsVal)
  | obj (fields : List (String × JsVal))

/-- JavaScript property read `v[key]`: on an object the most recently written
binding of `key` (later duplicate keys win, as in `JSON.parse`), `undefined`
otherwise. -/
def jsGet (v : JsVal) (key : String) : JsVal :=
  match v with
  | .obj fields =>
    (fields.foldl (fun acc kv => if kv.1 = key then some kv.2 else acc) none).getD .undefined
  | _ => .undefined

/-- JavaScript `typeof v === "string"`. -/
def typeofIsString : JsVal → Bool
  | .str _ => true
  | _ => false

/-- JavaScript truthiness of a value. -/
def jsTruthy : JsVal → Bool
  | .str s => !(s == "")
  | .num n => !(n == 0)
  | .bool b => b
  | .null => false
  | .undefined => false
  | .arr _ => true
  | .obj _ => true

/-- JavaScript `v.length === 0`: the length of a string or array; reading
`length` on other values gives `undefined`, which is not `=== 0`. -/
def jsLengthIsZero : JsVal → Bool
  | .str s => s.length == 0
  | .arr items => items.length == 0
  | _ => false

/-- The canonical artifact record of `src/index.ts`; all four fields are raw
JavaScript values, `bytecode` being `undefined` when absent. -/
structure Artifact where
  contractName : JsVal
  sourceName : JsVal
  abi : JsVal
  bytecode : JsVal

/-- `validateArtifact` of `src/index.ts`: type-check the four fields of the
parsed value and collect one error message per missing or malformed field,
in field order, the bytecode check only when `requireBytecode` is set. -/
def validateArtifact (artifact : JsVal) (requireBytecode : Bool) : List String :=
  let e1 : List String :=
    match jsGet artifact "contractName" with
    | .str s => if s.length = 0 then ["Missing or invalid field: contractName (string)"] else []
    | _ => ["Missing or invalid field: contractName (string)"]
  let e2 : List String :=
    match jsGet artifact "sourceName" with
    | .str s => if s.length = 0 then ["Missing or invalid field: sourceName (string)"] else []
    | _ => ["Missing or invalid field: sourceName (string)"]
  let e3 : List String :=
    match jsGet artifact "abi" with
    | .arr _ => []
    | _ => ["Missing or invalid field: abi (array)"]
  let e4 : List String :=
    if requireBytecode then
      match jsGet artifact "bytecode" with
      | .str s =>
        if s.length = 0 then
          ["Missing or invalid field: bytecode (string) required when --deployable is set"]
        else []
      | _ => ["Missing or invalid field: bytecode (string) required when --deployable is set"]
    else []
  e1 ++ e2 ++ e3 ++ e4

/-- `deriveArtifactFromAbiOnly` of `src/index.ts`: fallback inference.  A bare
array is taken as a complete ABI; an object with an array-valued `abi` field
is accepted with its `bytecode` kept only when it is a string.  The contract
name is the file's base name with its extension stripped, the source name is
empty. -/
def deriveArtifactFromAbiOnly (filePath : String) (data : JsVal) : Option Artifact :=
  let fileBase := jsBasenameNoExt filePath
  match data with
  | .arr items => some ⟨.str fileBase, .str "", .arr items, .undefined⟩
  | .obj fields =>
    match jsGet (.obj fields) "abi" with
    | .arr items =>
      some ⟨.str fileBase, .str "", .arr items,
        match jsGet (.obj fields) "bytecode" with
        | .str b => .str b
        | _ => .undefined⟩
    | _ => none
  | _ => none

/-- `formatValidationErrors` of `src/index.ts`; `resolve` stands for Node's
cwd-dependent `path.resolve`. -/
def formatValidationErrors (resolve : String → String) (filePath : String)
    (errors : List String) : String :=
  "- " ++ resolve filePath ++ ":\n  - " ++ String.intercalate "\n  - " errors

/-- The warning pushed by `main` when `--deployable` is set but the fallback
artifact has no string bytecode. -/
def deployableNotice (resolve : String → String) (filePath : String) : String :=
  "- " ++ resolve filePath ++
    ": --deployable passed but ABI-only input; generated non-deployable bindings only"

/-- The four fields the generator reads from a raw artifact value that passed
full validation and is pushed to the batch unchanged. -/
def viewArtifact (data : JsVal) : Artifact :=
  ⟨jsGet data "contractName", jsGet data "sourceName", jsGet data "abi", jsGet data "bytecode"⟩

/-- Outcome of `main`'s per-file validation step: the artifact is added to the
batch (with an optional deployable-fallback notice), or the file is rejected
with an aggregated failure message. -/
inductive FileOutcome where
  | accepted (artifact : Artifact) (notice : Option String)
  | rejected (failure : String)

/-- The per-file body of `main`'s validation loop (`src/index.ts`): run
`validateArtifact`; on errors attempt `deriveArtifactFromAbiOnly`, accepting
the fallback (with a notice when `--deployable` is set but the fallback
bytecode is not a string) and rejecting the file only when fallback also
fails; a clean full artifact is accepted as is. -/
def processFile (resolve : String → String) (file : String) (data : JsVal)
    (includeDeployable : Bool) : FileOutcome :=
  let errs := validateArtifact data includeDeployable
  if errs.length > 0 then
    match deriveArtifactFromAbiOnly file data with
    | some fallback =>
      let notice :=
        if includeDeployable && !(typeofIsString fallback.bytecode) then
          some (deployableNotice resolve file)
        else none
      .accepted fallback notice
    | none => .rejected (formatValidationErrors resolve file errs)
  else
    .accepted (viewArtifact data) none

/-- The package name computed by `Generator.generate`:
`contract.replaceAll("-", "").replaceAll("_", "").toLowerCase()`. -/
def jsPackageName (contract : String) : String :=
  jsToLowerCase (jsReplaceAllCharEmpty '_' (jsReplaceAllCharEmpty '-' contract))

/-- Step 2 of `Generator._sanitizeTypeName`:
`if (t.length === 0) t = "Contract"`. -/
def sanitizeDefault (t : List Char) : List Char :=
  if t.length = 0 then "Contract".data else t

/-- Step 3 of `Generator._sanitizeTypeName`:
`if (!/^[A-Za-z]/.test(t)) t = "X" + t`. -/
def sanitizeEnsureLetter (t : List Char) : List Char :=
  if !(t.head?.elim false jsIsAsciiLetter) then 'X' :: t else t

/-- Step 4 of `Generator._sanitizeTypeName`:
`t = t.charAt(0).toUpperCase() + t.slice(1)` (on the empty string this is the
empty string). -/
def sanitizeCapitalize : List Char → List Char
  | [] => []
  | c :: cs => jsToUpperAscii c :: cs

/-- `Generator._sanitizeTypeName`, on the character list of the name: strip
every character outside `[a-zA-Z0-9]`; default to `"Contract"` when nothing
remains; prepend `X` when the result does not start with a letter; uppercase
the first character. -/
def sanitizeTypeNameL (name : List Char) : List Char :=
  sanitizeCapitalize (sanitizeEnsureLetter (sanitizeDefault (name.filter jsIsAsciiAlnum)))

/-- `Generator._sanitizeTypeName` (identical in the TypeScript and CommonJS
variants of `Generator`). -/
def sanitizeTypeName (name : String) : String :=
  ⟨sanitizeTypeNameL name.data⟩

/-- An artifact as typed by the TypeScript `Generator` interface:
`contractName` and `sourceName` are strings, `bytecode` a string or absent. -/
structure TsArtifact where
  contractName : String
  sourceName : String
  abi : JsVal
  bytecode : Option String

/-- An artifact as received by the untyped CommonJS `Generator`: raw
JavaScript values. -/
structure CjsArtifact where
  contractName : JsVal
  sourceName : JsVal
  abi : JsVal
  bytecode : JsVal

/-- Everything `Generator.generate` computes for one artifact before touching
the filesystem: staged-file paths, package name, output directory and file,
sanitized type name, the argument string and vector handed to the external
generator, and which invocation branch (deployable with `--bin`, or plain)
is taken. -/
structure GenPlan where
  abiPath : String
  binPath : String
  packageName : String
  genDir : String
  genPath : String
  sanitizedType : String
  argvStr : String
  argvVec : List String
  usesBin : Bool

/-- The pure path/argv computation of the TypeScript `Generator.generate`
loop body (`src/abigen/generator.ts`): `sourceDir = path.dirname(source)`,
flat output when `!source || source.length === 0 || sourceDir === "."`, and
the deployable branch when `deployable && artifact.bytecode &&
artifact.bytecode.length > 0`. -/
def tsGenPlan (outDir abigenVersion : String) (a : TsArtifact) (deployable : Bool) : GenPlan :=
  let contract := a.contractName
  let source := a.sourceName
  let abiPath := outDir ++ "/" ++ contract ++ ".abi"
  let packageName := jsPackageName contract
  let sourceDir := jsDirname source
  let useFlatOut := (source == "") || (source.length == 0) || (sourceDir == ".")
  let genDir := if useFlatOut then outDir else outDir ++ "/" ++ sourceDir ++ "/" ++ packageName
  let genPath := genDir ++ "/" ++ contract ++ ".go"
  let sanitizedType := sanitizeTypeName contract
  let v2Flag := if abigenVersion = "v1" then "" else " --v2"
  let argv := "abigen" ++ v2Flag ++ " --abi " ++ abiPath ++ " --pkg " ++ packageName ++
    " --type " ++ sanitizedType ++ " --out " ++ genPath
  let usesBin := deployable && (match a.bytecode with
    | some b => !(b == "") && decide (0 < b.length)
    | none => false)
  let binPath := outDir ++ "/" ++ contract ++ ".bin"
  let argvUsed := if usesBin then argv ++ " --bin " ++ binPath else argv
  ⟨abiPath, binPath, packageName, genDir, genPath, sanitizedType, argvUsed,
    argvUsed.splitOn " ", usesBin⟩

/-- The pure path/argv computation of the CommonJS `Generator.generate` loop
body (`src/abigen/generator.cjs`): `sourceDir` is guarded by
`typeof source === "string"`, the flat-output test uses JavaScript truthiness
and `length === 0` on the raw value, and the deployable branch requires
`typeof artifact.bytecode === "string" && artifact.bytecode.length > 0`.
Returns `none` when `contractName` is not a string, where the JavaScript
code would throw on `contract.replaceAll`. -/
def cjsGenPlan (outDir abigenVersion : String) (a : CjsArtifact) (deployable : Bool) :
    Option GenPlan :=
  match a.contractName with
  | .str contract =>
    let source := a.sourceName
    let abiPath := outDir ++ "/" ++ contract ++ ".abi"
    let packageName := jsPackageName contract
    let sourceDir := match source with
      | .str s => jsDirname s
      | _ => ""
    let useFlatOut := !(jsTruthy source) || jsLengthIsZero source || (sourceDir == ".")
    let genDir := if useFlatOut then outDir else outDir ++ "/" ++ sourceDir ++ "/" ++ packageName
    let genPath := genDir ++ "/" ++ contract ++ ".go"
    let sanitizedType := sanitizeTypeName contract
    let v2Flag := if abigenVersion = "v1" then "" else " --v2"
    let argv := "abigen" ++ v2Flag ++ " --abi " ++ abiPath ++ " --pkg " ++ packageName ++
      " --type " ++ sanitizedType ++ " --out " ++ genPath
    let usesBin := deployable && (match a.bytecode with
      | .str b => decide (0 < b.length)
      | _ => false)
    let binPath := outDir ++ "/" ++ contract ++ ".bin"
    let argvUsed := if usesBin then argv ++ " --bin " ++ binPath else argv
    some ⟨abiPath, binPath, packageName, genDir, genPath, sanitizedType, argvUsed,
      argvUsed.splitOn " ", usesBin⟩
  | _ => none

/-- Filesystem state visible to `Generator.generate`: the set of regular
files and the set of directories, each as a duplicate-free list of paths. -/
structure FsState where
  files : List String
  dirs : List String

/-- `fsp.writeFile`: (over)write a file. -/
def fsWriteFile (p : String) (st : FsState) : FsState :=
  { st with files := if p ∈ st.files then st.files else st.files ++ [p] }

/-- `fsp.rm`: remove a file. -/
def fsRmFile (p : String) (st : FsState) : FsState :=
  { st with files := st.files.filter (fun q => q ≠ p) }

/-- `fsp.mkdir`: create a directory. -/
def fsMkdir (p : String) (st : FsState) : FsState :=
  { st with dirs := if p ∈ st.dirs then st.dirs else st.dirs ++ [p] }

/-- `fs.existsSync` on a directory path. -/
def fsHasDir (p : String) (st : FsState) : Bool :=
  p ∈ st.dirs

/-- The loop body of the TypeScript `Generator.generate` for one artifact,
with the `abigen` WebAssembly invocation abstracted into the boolean
`invokeOk` (`true`: normal completion, `false`: the invocation throws).
Mirrors the statement order of the source: ensure `outDir` exists, create
the target directory, write the staged `.abi` file; in the deployable branch
write the staged `.bin` file, invoke, then remove the `.bin`; otherwise just
invoke; finally remove the staged `.abi` file.  A throwing invocation
propagates immediately, so the removals that follow it are skipped, exactly
as in the source (which has no `try`/`finally`).  Returns the final
filesystem state and whether the artifact was processed without failure. -/
def generateOne (outDir abigenVersion : String) (a : TsArtifact) (deployable : Bool)
    (invokeOk : Bool) (st : FsState) : FsState × Bool :=
  let plan := tsGenPlan outDir abigenVersion a deployable
  let st1 := if !(fsHasDir outDir st) then fsMkdir outDir st else st
  let st2 := fsMkdir plan.genDir st1
  let st3 := fsWriteFile plan.abiPath st2
  if plan.usesBin then
    let st4 := fsWriteFile plan.binPath st3
    if invokeOk then (fsRmFile plan.abiPath (fsRmFile plan.binPath st4), true)
    else (st4, false)
  else
    if invokeOk then (fsRmFile plan.abiPath st3, true)
    else (st3, false)

/-- `Generator.generate` over a batch: artifacts are processed strictly in
order and the first failing invocation aborts the remainder.  The oracle
`invoke` decides each invocation from its argument vector. -/
def generateRun (outDir abigenVersion : String) (deployable : Bool)
    (invoke : List String → Bool) : List TsArtifact → FsState → FsState × Bool
  | [], st => (st, true)
  | a :: rest, st =>
    let plan := tsGenPlan outDir abigenVersion a deployable
    let res := generateOne outDir abigenVersion a deployable (invoke plan.argvVec) st
    if res.2 then generateRun outDir abigenVersion deployable invoke rest res.1
    else res

/-- A filesystem tree entry as enumerated by `fsp.readdir` with file types:
a regular file or a directory with its children. -/
inductive FsNode where
  | file (name : String)
  | dir (name : String) (children : List FsNode)

/-- What `fsp.stat` reports for a resolved input path: absent, a regular
file, or a directory (with the subtree that recursive enumeration will
walk). -/
inductive StatResult where
  | isFile
  | isDir (children : List FsNode)

/-- `listFilesRecursively` of `src/index.ts`: depth-first, in directory
order, collecting the joined path of every regular file beneath the
directory. -/
def listFilesRecursively (dirPath : String) : List FsNode → List String
  | [] => []
  | FsNode.file name :: rest =>
    (dirPath ++ "/" ++ name) :: listFilesRecursively dirPath rest
  | FsNode.dir name children :: rest =>
    listFilesRecursively (dirPath ++ "/" ++ name) children ++ listFilesRecursively dirPath rest

/-- The collection loop of `collectCandidateFiles`: resolve each input; a
missing input (failed `stat`) is warned about and skipped, a regular file is
pushed, a directory is expanded recursively.  Returns the candidate files
and the warnings, each in processing order. -/
def collectRaw (resolve : String → String) (stat : String → Option StatResult) :
    List String → List String × List String
  | [] => ([], [])
  | p :: rest =>
    let abs := resolve p
    let res := collectRaw resolve stat rest
    match stat abs with
    | none => (res.1, ("Input not found, skipping: " ++ abs) :: res.2)
    | some StatResult.isFile => (abs :: res.1, res.2)
    | some (StatResult.isDir children) => (listFilesRecursively abs children ++ res.1, res.2)

/-- `Array.from(new Set(l))`: deduplicate keeping the first occurrence of
each element. -/
def jsSetDedup (l : List String) : List String :=
  l.foldl (fun acc x => if x ∈ acc then acc else acc ++ [x]) []

/-- The candidate filter of `collectCandidateFiles`:
`f.toLowerCase().endsWith(".json")`. -/
def isJsonCandidate (f : String) : Bool :=
  jsEndsWith (jsToLowerCase f) ".json"

/-- `collectCandidateFiles` of `src/index.ts`: collect, filter to JSON
candidates, deduplicate; the warnings for missing inputs are returned
alongside (the source prints them and never throws). -/
def collectCandidateFiles (resolve : String → String) (stat : String → Option StatResult)
    (inputs : List String) : List String × List String :=
  let res := collectRaw resolve stat inputs
  (jsSetDedup (res.1.filter (fun f => isJsonCandidate f)), res.2)

/-- Modelled from the spec: the package-name normalization rule stated in
§4.3, "artifactName with all `-` and `_` characters removed, lower-cased",
written directly as a filter followed by a character map, for comparison
with the implementation's chain of `replaceAll` calls. -/
def specPackageName (contract : String) : String :=
  ⟨(contract.data.filter (fun c => !(c == '-' || c == '_'))).map jsToLowerAscii⟩

/-- A "full" artifact value: an object carrying explicit `contractName`,
`sourceName`, `abi` and `bytecode` properties. -/
def mkFullArtifact (name origin : String) (abi : List JsVal) (bytecode : JsVal) : JsVal :=
  .obj [("contractName", .str name), ("sourceName", .str origin),
        ("abi", .arr abi), ("bytecode", bytecode)]

/-! ## Helper lemmas -/

theorem char_toNat_ofNat_of_lt {m : Nat} (h : m < 55296) : (Char.ofNat m).toNat = m := by
  have hv : Nat.isValidChar m := Or.inl h
  rw [Char.ofNat, dif_pos hv]
  simp [Char.ofNatAux, Char.toNat, UInt32.toNat]

theorem jsIsAsciiAlnum_of_letter {c : Char} (h : jsIsAsciiLetter c = true) :
    jsIsAsciiAlnum c = true := by
  simp [jsIsAsciiAlnum, h]

theorem jsToUpperAscii_letter {c : Char} (h : jsIsAsciiLetter c = true) :
    jsIsAsciiLetter (jsToUpperAscii c) = true := by
  simp only [jsIsAsciiLetter, decide_eq_true_eq] at h ⊢
  unfold jsToUpperAscii
  rcases h with h | h
  · rw [if_neg (by omega)]
    omega
  · rw [if_pos (by omega)]
    rw [char_toNat_ofNat_of_lt (by omega)]
    omega

theorem str_length_eq_zero {s : String} : s.length = 0 ↔ s = "" := by
  rw [← String.length_data, List.length_eq_zero, String.ext_iff]

theorem str_append_left_cancel {a b c : String} (h : a ++ b = a ++ c) : b = c := by
  have h2 : a.data ++ b.data = a.data ++ c.data := by
    have := congrArg String.data h
    simpa [String.data_append] using this
  exact String.ext (List.append_cancel_left h2)

theorem removeAllCharL_underscore_dash (l : List Char) :
    removeAllCharL '_' (removeAllCharL '-' l) =
      l.filter (fun c => !(c == '-' || c == '_')) := by
  induction l with
  | nil => rfl
  | cons c cs ih =>
    by_cases h1 : c = '-'
    · subst h1
      simp [removeAllCharL, List.filter, ih]
    · by_cases h2 : c = '_'
      · subst h2
        simp [removeAllCharL, List.filter, ih]
      · have hcond : (!(c == '-' || c == '_')) = true := by simp [h1, h2]
        rw [List.filter_cons, if_pos hcond]
        simp [removeAllCharL, h1, h2, ih]

/-! ## C4: type-identifier derivation -/

/-- C4: the derived type identifier for `"3-cool_token"` is `"X3cooltoken"`,
and for every artifact name the result of `Generator._sanitizeTypeName` is a
non-empty string of ASCII letters and digits whose first character is a
letter. -/
theorem claim_C4 :
    sanitizeTypeName "3-cool_token" = "X3cooltoken" ∧
    ∀ name : String, ∃ c cs, (sanitizeTypeName name).data = c :: cs ∧
      jsIsAsciiLetter c = true ∧ (c :: cs).all jsIsAsciiAlnum = true := by
  refine ⟨by decide, ?_⟩
  intro name
  show ∃ c cs, sanitizeTypeNameL name.data = c :: cs ∧ _
  have halnum : ∀ x ∈ name.data.filter jsIsAsciiAlnum, jsIsAsciiAlnum x = true :=
    fun x hx => (List.mem_filter.mp hx).2
  unfold sanitizeTypeNameL
  cases hf : name.data.filter jsIsAsciiAlnum with
  | nil =>
    refine ⟨'C', "ontract".data, by decide, by decide, by decide⟩
  | cons c cs =>
    rw [hf] at halnum
    have hc : jsIsAsciiAlnum c = true := halnum c (List.mem_cons_self c cs)
    have hcs : cs.all jsIsAsciiAlnum = true :=
      List.all_eq_true.mpr fun x hx => halnum x (List.mem_cons_of_mem c hx)
    rw [sanitizeDefault, if_neg (by simp)]
    by_cases hl : jsIsAsciiLetter c = true
    · rw [sanitizeEnsureLetter, if_neg (by simp [hl])]
      exact ⟨jsToUpperAscii c, cs, rfl, jsToUpperAscii_letter hl,
        by simp only [List.all_cons, hcs, Bool.and_true]
           exact jsIsAsciiAlnum_of_letter (jsToUpperAscii_letter hl)⟩
    · rw [sanitizeEnsureLetter, if_pos (by simp [hl])]
      refine ⟨jsToUpperAscii 'X', c :: cs, rfl, by decide, ?_⟩
      simp only [List.all_cons, hc, hcs, Bool.and_true]
      decide

/-! ## C5: package-name normalization -/

/-- C5: the package name is the artifact name with every `-` and `_` removed
and the remaining characters lower-cased (so the implementation's chain of
`replaceAll` calls agrees with the specification's filter-then-lowercase
rule on every name), and the two distinct names `"My-Token_V2"` and
`"MyTokenV2"` both normalize to `"mytokenv2"`. -/
theorem claim_C5 :
    jsPackageName "My-Token_V2" = "mytokenv2" ∧
    jsPackageName "MyTokenV2" = "mytokenv2" ∧
    "My-Token_V2" ≠ "MyTokenV2" ∧
    ∀ contract : String, jsPackageName contract = specPackageName contract := by
  refine ⟨by decide, by decide, by decide, ?_⟩
  intro contract
  show (⟨(removeAllCharL '_' (removeAllCharL '-' contract.data)).map jsToLowerAscii⟩ : String) = _
  unfold specPackageName
  rw [removeAllCharL_underscore_dash]

/-! ## Property-read lemmas for full artifact objects -/

theorem jsGet_mkFull_contractName (name origin : String) (abi : List JsVal) (bc : JsVal) :
    jsGet (mkFullArtifact name origin abi bc) "contractName" = .str name := rfl

theorem jsGet_mkFull_sourceName (name origin : String) (abi : List JsVal) (bc : JsVal) :
    jsGet (mkFullArtifact name origin abi bc) "sourceName" = .str origin := rfl

theorem jsGet_mkFull_abi (name origin : String) (abi : List JsVal) (bc : JsVal) :
    jsGet (mkFullArtifact name origin abi bc) "abi" = .arr abi := rfl

theorem jsGet_mkFull_bytecode (name origin : String) (abi : List JsVal) (bc : JsVal) :
    jsGet (mkFullArtifact name origin abi bc) "bytecode" = bc := rfl

/-! ## C3: validation of full artifacts -/

/-- C3 (counterexample): a full artifact with non-empty name, empty origin
string, a sequence interface description and no deployable requirement is
rejected by `validateArtifact` with a `sourceName` error, contradicting the
claim that validation succeeds for a possibly empty origin string. -/
theorem claim_C3_counterexample :
    validateArtifact (mkFullArtifact "A" "" [] JsVal.undefined) false =
      ["Missing or invalid field: sourceName (string)"] ∧
    validateArtifact (mkFullArtifact "A" "" [] JsVal.undefined) false ≠ [] := by
  constructor
  · rfl
  · decide

/-- C3 (amended): for every full artifact with a non-empty name string, a
NON-empty origin string, a sequence-valued interface description, and
non-empty string bytecode whenever deployable generation is requested,
`validateArtifact` returns the empty error list.  (The code, unlike the
claim, also rejects an empty origin string: `sourceName.length === 0` is an
error.) -/
theorem claim_C3 (name origin : String) (abi : List JsVal) (bytecode : JsVal)
    (deployable : Bool) (hname : name ≠ "") (horigin : origin ≠ "")
    (hbc : deployable = true → ∃ b : String, bytecode = JsVal.str b ∧ b ≠ "") :
    validateArtifact (mkFullArtifact name origin abi bytecode) deployable = [] := by
  have hn : ¬(name.length = 0) := fun h => hname (str_length_eq_zero.mp h)
  have ho : ¬(origin.length = 0) := fun h => horigin (str_length_eq_zero.mp h)
  simp only [validateArtifact, jsGet_mkFull_contractName, jsGet_mkFull_sourceName,
    jsGet_mkFull_abi, jsGet_mkFull_bytecode, if_neg hn, if_neg ho]
  cases deployable with
  | false => simp
  | true =>
    obtain ⟨b, hb, hbne⟩ := hbc rfl
    subst hb
    have hblen : ¬(b.length = 0) := fun h => hbne (str_length_eq_zero.mp h)
    simp [if_neg hblen]

/-- C3 witness: a concrete valid full artifact with `--deployable` set
validates with no errors. -/
theorem claim_C3_witness :
    validateArtifact (mkFullArtifact "T" "contracts/T.sol" [] (JsVal.str "0x60")) true = [] :=
  claim_C3 "T" "contracts/T.sol" [] (JsVal.str "0x60") true (by decide) (by decide)
    (fun _ => ⟨"0x60", rfl, by decide⟩)

/-! ## C2: deployable mode and full artifacts without bytecode -/

/-- C2 (counterexample): with deployable mode requested, a full artifact
(explicit `contractName`, `sourceName` and `abi` fields) whose bytecode is
missing is NOT excluded from the batch: `main`'s per-file step accepts it
through fallback inference (renamed to the file's base name, origin emptied)
with a notice, because a full artifact is in particular an object with an
array `abi` field. -/
theorem claim_C2_counterexample :
    processFile id "f.json" (mkFullArtifact "A" "contracts/X.sol" [] JsVal.undefined) true =
      FileOutcome.accepted ⟨JsVal.str "f", JsVal.str "", JsVal.arr [], JsVal.undefined⟩
        (some "- f.json: --deployable passed but ABI-only input; generated non-deployable bindings only") := by
  rfl

/-- C2 (amended): with deployable mode requested, for every full artifact
whose bytecode is missing (`undefined`) or the empty string,
`validateArtifact` does return a hard bytecode error for the file, but the
artifact is NOT excluded from the batch: since it is an object with an
array-valued `abi` field, fallback inference accepts it (renamed to the
input file's base name, with empty origin), with a warning notice exactly
when the bytecode is not a string.  Only a file for which fallback also
fails is excluded. -/
theorem claim_C2 (resolve : String → String) (file name origin : String)
    (abi : List JsVal) (bytecode : JsVal)
    (hbc : bytecode = JsVal.undefined ∨ bytecode = JsVal.str "") :
    "Missing or invalid field: bytecode (string) required when --deployable is set" ∈
      validateArtifact (mkFullArtifact name origin abi bytecode) true ∧
    processFile resolve file (mkFullArtifact name origin abi bytecode) true =
      FileOutcome.accepted
        ⟨JsVal.str (jsBasenameNoExt file), JsVal.str "", JsVal.arr abi, bytecode⟩
        (if typeofIsString bytecode then none
         else some (deployableNotice resolve file)) := by
  have herr : ∀ bc : JsVal, bc = JsVal.undefined ∨ bc = JsVal.str "" →
      validateArtifact (mkFullArtifact name origin abi bc) true =
        (validateArtifact (mkFullArtifact name origin abi bc) false) ++
          ["Missing or invalid field: bytecode (string) required when --deployable is set"] := by
    intro bc hb
    rcases hb with hb | hb <;> subst hb <;>
      simp [validateArtifact, jsGet_mkFull_contractName, jsGet_mkFull_sourceName,
        jsGet_mkFull_abi, jsGet_mkFull_bytecode]
  constructor
  · rw [herr bytecode hbc]
    exact List.mem_append_right _ (List.mem_singleton.mpr rfl)
  · have hlen : (validateArtifact (mkFullArtifact name origin abi bytecode) true).length > 0 := by
      rw [herr bytecode hbc]
      simp
    unfold processFile
    rw [if_pos hlen]
    rcases hbc with hb | hb <;> subst hb <;> rfl

/-- C2 witness: a concrete full artifact without bytecode under deployable
mode is degraded to an accepted fallback artifact with a notice. -/
theorem claim_C2_witness :
    "Missing or invalid field: bytecode (string) required when --deployable is set" ∈
      validateArtifact (mkFullArtifact "N" "c/N.sol" [] JsVal.undefined) true ∧
    processFile id "inputs/N.json" (mkFullArtifact "N" "c/N.sol" [] JsVal.undefined) true =
      FileOutcome.accepted
        ⟨JsVal.str (jsBasenameNoExt "inputs/N.json"), JsVal.str "", JsVal.arr [], JsVal.undefined⟩
        (if typeofIsString JsVal.undefined then none
         else some (deployableNotice id "inputs/N.json")) :=
  claim_C2 id "inputs/N.json" "N" "c/N.sol" [] JsVal.undefined (Or.inl rfl)

/-! ## C6: bare-sequence fallback inference -/

/-- C6: every input that parses to a bare JSON sequence is accepted by
fallback inference: the artifact's name is the input file's base name with
its extension stripped, its origin is the empty string, and it carries no
bytecode; when deployable mode is requested a notice (not an error) is
attached. -/
theorem claim_C6 (resolve : String → String) (file : String) (items : List JsVal)
    (deployable : Bool) :
    processFile resolve file (JsVal.arr items) deployable =
      FileOutcome.accepted
        ⟨JsVal.str (jsBasenameNoExt file), JsVal.str "", JsVal.arr items, JsVal.undefined⟩
        (if deployable then some (deployableNotice resolve file) else none) := by
  cases deployable <;> rfl

/-! ## C9: bytecode independence when not required -/

/-- C9: when bytecode is not required, `validateArtifact` is independent of
the bytecode field: any two values that agree on the `contractName`,
`sourceName` and `abi` properties (and may differ arbitrarily on
`bytecode`) produce identical error lists. -/
theorem claim_C9 (d1 d2 : JsVal)
    (hn : jsGet d1 "contractName" = jsGet d2 "contractName")
    (hs : jsGet d1 "sourceName" = jsGet d2 "sourceName")
    (ha : jsGet d1 "abi" = jsGet d2 "abi") :
    validateArtifact d1 false = validateArtifact d2 false := by
  simp only [validateArtifact, hn, hs, ha]
  simp

/-- C9 witness: two concrete full artifacts differing only in bytecode are
validated identically when bytecode is not required. -/
theorem claim_C9_witness :
    validateArtifact (mkFullArtifact "A" "s/A.sol" [] (JsVal.str "0xff")) false =
      validateArtifact (mkFullArtifact "A" "s/A.sol" [] JsVal.undefined) false :=
  claim_C9 (mkFullArtifact "A" "s/A.sol" [] (JsVal.str "0xff"))
    (mkFullArtifact "A" "s/A.sol" [] JsVal.undefined) rfl rfl rfl

/-! ## C7: output directory layout -/

theorem tsFlatCond_iff (source : String) :
    ((source == "") || (source.length == 0) || (jsDirname source == ".")) = true ↔
    (source = "" ∨ jsDirname source = ".") := by
  simp only [Bool.or_eq_true, beq_iff_eq, str_length_eq_zero]
  tauto

theorem tsGenPlan_genDir_flat (outDir version contract source : String) (abi : JsVal)
    (bc : Option String) (deployable : Bool) (h : source = "" ∨ jsDirname source = ".") :
    (tsGenPlan outDir version ⟨contract, source, abi, bc⟩ deployable).genDir = outDir := by
  simp only [tsGenPlan]
  rw [if_pos ((tsFlatCond_iff source).mpr h)]

theorem tsGenPlan_genDir_nonflat (outDir version contract source : String) (abi : JsVal)
    (bc : Option String) (deployable : Bool) (h : ¬(source = "" ∨ jsDirname source = ".")) :
    (tsGenPlan outDir version ⟨contract, source, abi, bc⟩ deployable).genDir =
      outDir ++ "/" ++ jsDirname source ++ "/" ++ jsPackageName contract := by
  simp only [tsGenPlan]
  rw [if_neg (fun hc => h ((tsFlatCond_iff source).mp hc))]

theorem tsGenPlan_genPath_eq (outDir version contract source : String) (abi : JsVal)
    (bc : Option String) (deployable : Bool) :
    (tsGenPlan outDir version ⟨contract, source, abi, bc⟩ deployable).genPath =
      (tsGenPlan outDir version ⟨contract, source, abi, bc⟩ deployable).genDir ++
        "/" ++ contract ++ ".go" := by
  simp only [tsGenPlan]

/-- C7 (counterexample): for the origin path `"Token.sol"` — which is neither
empty nor the current-directory marker — the generated file is placed
directly under the output root (`out/A.go`), not under
`outputRoot/dirname(originPath)/packageName` as the claim's otherwise-branch
states, because the code flattens whenever `path.dirname(originPath)` is
`"."`, which holds for every bare filename. -/
theorem claim_C7_counterexample :
    ("Token.sol" ≠ "" ∧ "Token.sol" ≠ ".") ∧
    (tsGenPlan "out" "v2" ⟨"A", "Token.sol", JsVal.arr [], none⟩ false).genDir = "out" ∧
    (tsGenPlan "out" "v2" ⟨"A", "Token.sol", JsVal.arr [], none⟩ false).genPath = "out/A.go" ∧
    "out" ≠ "out" ++ "/" ++ jsDirname "Token.sol" ++ "/" ++ jsPackageName "A" := by
  decide

/-- C7 (amended): the generated source file is placed directly under the
output root exactly when the origin path is empty or its directory part
(`path.dirname`) is the current-directory marker `"."` (which also covers
bare filenames such as `"Token.sol"`); otherwise it is placed under
`outputRoot/dirname(originPath)/packageName`, so two artifacts sharing an
origin whose names normalize to distinct package names land in sibling
package-named directories. -/
theorem claim_C7 (outDir version contract source : String) (abi : JsVal)
    (bc : Option String) (deployable : Bool) :
    ((source = "" ∨ jsDirname source = ".") →
      (tsGenPlan outDir version ⟨contract, source, abi, bc⟩ deployable).genDir = outDir ∧
      (tsGenPlan outDir version ⟨contract, source, abi, bc⟩ deployable).genPath =
        outDir ++ "/" ++ contract ++ ".go") ∧
    (¬(source = "" ∨ jsDirname source = ".") →
      (tsGenPlan outDir version ⟨contract, source, abi, bc⟩ deployable).genDir =
        outDir ++ "/" ++ jsDirname source ++ "/" ++ jsPackageName contract ∧
      (tsGenPlan outDir version ⟨contract, source, abi, bc⟩ deployable).genPath =
        outDir ++ "/" ++ jsDirname source ++ "/" ++ jsPackageName contract ++
          "/" ++ contract ++ ".go") ∧
    (¬(source = "" ∨ jsDirname source = ".") → ∀ contract2 : String,
      jsPackageName contract ≠ jsPackageName contract2 →
      (tsGenPlan outDir version ⟨contract2, source, abi, bc⟩ deployable).genDir ≠
        (tsGenPlan outDir version ⟨contract, source, abi, bc⟩ deployable).genDir) := by
  refine ⟨?_, ?_, ?_⟩
  · intro h
    have hd := tsGenPlan_genDir_flat outDir version contract source abi bc deployable h
    exact ⟨hd, by rw [tsGenPlan_genPath_eq, hd]⟩
  · intro h
    have hd := tsGenPlan_genDir_nonflat outDir version contract source abi bc deployable h
    exact ⟨hd, by rw [tsGenPlan_genPath_eq, hd]⟩
  · intro h contract2 hp
    rw [tsGenPlan_genDir_nonflat outDir version contract source abi bc deployable h,
      tsGenPlan_genDir_nonflat outDir version contract2 source abi bc deployable h]
    intro he
    exact hp (str_append_left_cancel he).symm

/-- C7 witness: concrete flat and nested placements, and sibling directories
for two artifacts sharing an origin. -/
theorem claim_C7_witness :
    (tsGenPlan "o" "v2" ⟨"T", "", JsVal.arr [], none⟩ false).genDir = "o" ∧
    (tsGenPlan "o" "v2" ⟨"My-Token", "contracts/a/T.sol", JsVal.arr [], none⟩ false).genDir =
      "o" ++ "/" ++ jsDirname "contracts/a/T.sol" ++ "/" ++ jsPackageName "My-Token" ∧
    (tsGenPlan "o" "v2" ⟨"Other", "contracts/a/T.sol", JsVal.arr [], none⟩ false).genDir ≠
      (tsGenPlan "o" "v2" ⟨"My-Token", "contracts/a/T.sol", JsVal.arr [], none⟩ false).genDir :=
  ⟨((claim_C7 "o" "v2" "T" "" (JsVal.arr []) none false).1 (Or.inl rfl)).1,
   ((claim_C7 "o" "v2" "My-Token" "contracts/a/T.sol" (JsVal.arr []) none false).2.1
      (by decide)).1,
   (claim_C7 "o" "v2" "My-Token" "contracts/a/T.sol" (JsVal.arr []) none false).2.2
      (by decide) "Other" (by decide)⟩

/-! ## C1: lifecycle of the staged files -/

theorem fsWriteFile_mem_iff (p q : String) (st : FsState) :
    q ∈ (fsWriteFile p st).files ↔ q ∈ st.files ∨ q = p := by
  unfold fsWriteFile
  by_cases h : p ∈ st.files
  · rw [if_pos h]
    exact ⟨Or.inl, fun hq => hq.elim id (fun he => he ▸ h)⟩
  · rw [if_neg h]
    simp

theorem fsRmFile_mem_iff (p q : String) (st : FsState) :
    q ∈ (fsRmFile p st).files ↔ q ∈ st.files ∧ q ≠ p := by
  unfold fsRmFile
  simp

/-- C1 (counterexample): when the external invocation raises, the loop body
of `generate` completes by propagating the failure, and both staged files
(`out/A.abi` and `out/A.bin`) still exist in the output root — the removals
are written after the invocation with no `try`/`finally`, so they are
skipped on failure. -/
theorem claim_C1_counterexample :
    (generateOne "out" "v2" ⟨"A", "", JsVal.arr [], some "0xdead"⟩ true false ⟨[], []⟩).2
        = false ∧
    "out/A.abi" ∈
      (generateOne "out" "v2" ⟨"A", "", JsVal.arr [], some "0xdead"⟩ true false ⟨[], []⟩).1.files ∧
    "out/A.bin" ∈
      (generateOne "out" "v2" ⟨"A", "", JsVal.arr [], some "0xdead"⟩ true false ⟨[], []⟩).1.files := by
  decide

/-- C1 (amended): for every artifact processed by `generate`, the staged
interface-description file `outputRoot/<name>.abi` (and the staged bytecode
file `outputRoot/<name>.bin`, when one was written) is removed exactly when
the external invocation succeeds; when the invocation raises, processing of
the artifact ends with the failure propagating and the staged files still
present in the output root. -/
theorem claim_C1 (outDir version : String) (a : TsArtifact) (deployable : Bool)
    (st : FsState) :
    (tsGenPlan outDir version a deployable).abiPath ∉
      (generateOne outDir version a deployable true st).1.files ∧
    ((tsGenPlan outDir version a deployable).usesBin = true →
      (tsGenPlan outDir version a deployable).binPath ∉
        (generateOne outDir version a deployable true st).1.files) ∧
    (generateOne outDir version a deployable true st).2 = true ∧
    (tsGenPlan outDir version a deployable).abiPath ∈
      (generateOne outDir version a deployable false st).1.files ∧
    ((tsGenPlan outDir version a deployable).usesBin = true →
      (tsGenPlan outDir version a deployable).binPath ∈
        (generateOne outDir version a deployable false st).1.files) ∧
    (generateOne outDir version a deployable false st).2 = false := by
  refine ⟨?_, ?_, ?_, ?_, ?_, ?_⟩ <;>
    by_cases hb : (tsGenPlan outDir version a deployable).usesBin = true <;>
      simp [generateOne, hb, fsRmFile_mem_iff, fsWriteFile_mem_iff]

/-- C1 witness: for a concrete deployable artifact with bytecode, both
staged files are gone after a successful invocation and both remain after a
failing one. -/
theorem claim_C1_witness :
    (tsGenPlan "out" "v2" ⟨"B", "c/B.sol", JsVal.arr [], some "0xbeef"⟩ true).abiPath ∉
      (generateOne "out" "v2" ⟨"B", "c/B.sol", JsVal.arr [], some "0xbeef"⟩ true true
        ⟨[], []⟩).1.files ∧
    (tsGenPlan "out" "v2" ⟨"B", "c/B.sol", JsVal.arr [], some "0xbeef"⟩ true).binPath ∉
      (generateOne "out" "v2" ⟨"B", "c/B.sol", JsVal.arr [], some "0xbeef"⟩ true true
        ⟨[], []⟩).1.files ∧
    (tsGenPlan "out" "v2" ⟨"B", "c/B.sol", JsVal.arr [], some "0xbeef"⟩ true).abiPath ∈
      (generateOne "out" "v2" ⟨"B", "c/B.sol", JsVal.arr [], some "0xbeef"⟩ true false
        ⟨[], []⟩).1.files ∧
    (tsGenPlan "out" "v2" ⟨"B", "c/B.sol", JsVal.arr [], some "0xbeef"⟩ true).binPath ∈
      (generateOne "out" "v2" ⟨"B", "c/B.sol", JsVal.arr [], some "0xbeef"⟩ true false
        ⟨[], []⟩).1.files :=
  ⟨(claim_C1 "out" "v2" ⟨"B", "c/B.sol", JsVal.arr [], some "0xbeef"⟩ true ⟨[], []⟩).1,
   (claim_C1 "out" "v2" ⟨"B", "c/B.sol", JsVal.arr [], some "0xbeef"⟩ true ⟨[], []⟩).2.1
     (by decide),
   (claim_C1 "out" "v2" ⟨"B", "c/B.sol", JsVal.arr [], some "0xbeef"⟩ true ⟨[], []⟩).2.2.2.1,
   (claim_C1 "out" "v2" ⟨"B", "c/B.sol", JsVal.arr [], some "0xbeef"⟩ true ⟨[], []⟩).2.2.2.2.1
     (by decide)⟩

/-! ## C8: input collection -/

theorem jsSetDedup_foldl_mem (l : List String) (acc : List String) (x : String) :
    x ∈ l.foldl (fun acc y => if y ∈ acc then acc else acc ++ [y]) acc ↔
      x ∈ acc ∨ x ∈ l := by
  induction l generalizing acc with
  | nil => simp
  | cons y ys ih =>
    rw [List.foldl_cons, ih]
    by_cases h : y ∈ acc
    · rw [if_pos h]
      simp only [List.mem_cons]
      constructor
      · rintro (h1 | h2)
        · exact Or.inl h1
        · exact Or.inr (Or.inr h2)
      · rintro (h1 | rfl | h2)
        · exact Or.inl h1
        · exact Or.inl h
        · exact Or.inr h2
    · rw [if_neg h]
      simp only [List.mem_append, List.mem_singleton, List.mem_cons]
      tauto

theorem jsSetDedup_mem (l : List String) (x : String) :
    x ∈ jsSetDedup l ↔ x ∈ l := by
  unfold jsSetDedup
  rw [jsSetDedup_foldl_mem]
  simp

theorem jsSetDedup_foldl_nodup (l : List String) (acc : List String) (h : acc.Nodup) :
    (l.foldl (fun acc y => if y ∈ acc then acc else acc ++ [y]) acc).Nodup := by
  induction l generalizing acc with
  | nil => exact h
  | cons y ys ih =>
    rw [List.foldl_cons]
    by_cases hy : y ∈ acc
    · rw [if_pos hy]
      exact ih _ h
    · rw [if_neg hy]
      exact ih _ (by simp [List.nodup_append, h, hy])

theorem jsSetDedup_nodup (l : List String) : (jsSetDedup l).Nodup :=
  jsSetDedup_foldl_nodup l [] (by simp)

theorem collectRaw_warnings (resolve : String → String) (stat : String → Option StatResult)
    (inputs : List String) :
    (collectRaw resolve stat inputs).2 =
      inputs.filterMap (fun p =>
        if (stat (resolve p)).isNone then some ("Input not found, skipping: " ++ resolve p)
        else none) := by
  induction inputs with
  | nil => rfl
  | cons p rest ih =>
    cases h : stat (resolve p) with
    | none => simp [collectRaw, h, List.filterMap_cons, ih]
    | some s => cases s <;> simp [collectRaw, h, List.filterMap_cons, ih]

theorem collectRaw_files_skip_missing (resolve : String → String)
    (stat : String → Option StatResult) (inputs : List String) :
    (collectRaw resolve stat (inputs.filter (fun p => (stat (resolve p)).isSome))).1 =
      (collectRaw resolve stat inputs).1 := by
  induction inputs with
  | nil => rfl
  | cons p rest ih =>
    cases h : stat (resolve p) with
    | none => simp [List.filter_cons, h, collectRaw, ih]
    | some s => cases s <;> simp [List.filter_cons, h, collectRaw, ih]

/-- C8: the input collector never fails on a missing input — each missing
input contributes exactly one warning and no files (dropping the missing
inputs leaves the collected files unchanged) — and its result contains
exactly the discovered regular files whose lower-cased path ends in
`.json`, with set semantics: no path occurs twice. -/
theorem claim_C8 (resolve : String → String) (stat : String → Option StatResult)
    (inputs : List String) :
    (collectCandidateFiles resolve stat inputs).1.Nodup ∧
    (∀ f, f ∈ (collectCandidateFiles resolve stat inputs).1 ↔
      f ∈ (collectRaw resolve stat inputs).1 ∧ isJsonCandidate f = true) ∧
    (collectCandidateFiles resolve stat inputs).2 =
      inputs.filterMap (fun p =>
        if (stat (resolve p)).isNone then some ("Input not found, skipping: " ++ resolve p)
        else none) ∧
    (collectRaw resolve stat (inputs.filter (fun p => (stat (resolve p)).isSome))).1 =
      (collectRaw resolve stat inputs).1 := by
  refine ⟨jsSetDedup_nodup _, ?_, collectRaw_warnings resolve stat inputs,
    collectRaw_files_skip_missing resolve stat inputs⟩
  intro f
  unfold collectCandidateFiles
  rw [jsSetDedup_mem]
  simp [List.mem_filter]

/-! ## C10: equivalence of the TypeScript and CommonJS generators -/

theorem ts_bin_cond (b : String) :
    ((!(b == "")) && decide (0 < b.length)) = decide (0 < b.length) := by
  by_cases hb : b = ""
  · subst hb
    decide
  · simp [hb]

/-- C10: on well-typed artifacts — string `contractName` and `sourceName`,
bytecode a string or absent — the TypeScript and CommonJS `Generator`
variants compute identical plans: the same staged-file paths, package name,
output directory and path, sanitized type name, argument vector, and the
same deployable-versus-plain invocation branch. -/
theorem claim_C10 (outDir version contract source : String) (abi : JsVal)
    (bcJs : JsVal) (bcTs : Option String)
    (hbc : (bcJs = JsVal.undefined ∧ bcTs = none) ∨
      ∃ b : String, bcJs = JsVal.str b ∧ bcTs = some b)
    (deployable : Bool) :
    cjsGenPlan outDir version ⟨JsVal.str contract, JsVal.str source, abi, bcJs⟩ deployable =
      some (tsGenPlan outDir version ⟨contract, source, abi, bcTs⟩ deployable) := by
  rcases hbc with ⟨h1, h2⟩ | ⟨b, h1, h2⟩ <;> subst h1 <;> subst h2 <;>
    simp only [cjsGenPlan, tsGenPlan, jsTruthy, jsLengthIsZero, Bool.not_not, ts_bin_cond]

/-- C10 witness: a concrete well-typed artifact on which the CommonJS plan
equals the TypeScript plan. -/
theorem claim_C10_witness :
    cjsGenPlan "o" "v1" ⟨JsVal.str "C-1", JsVal.str "a/C.sol", JsVal.arr [], JsVal.str "beef"⟩
        true =
      some (tsGenPlan "o" "v1" ⟨"C-1", "a/C.sol", JsVal.arr [], some "beef"⟩ true) :=
  claim_C10 "o" "v1" "C-1" "a/C.sol" (JsVal.arr []) (JsVal.str "beef") (some "beef")
    (Or.inr ⟨"beef", rfl, rfl⟩) true

end Abigen
